import Mathlib

/-!
Shallow embedding of the Adel cooperative-concurrency runtime
(src/adel.h, final revision "ADEL_V4", plus the earlier revision
"ADEL_V3" in src/unnamed/part_001 for the turn-mailbox construct).

The embedding models:
  * the four-valued status returned by every Adel routine (class astatus);
  * the abegin/aend resumption encoding: a routine body is a switch over a
    stored program counter adel_pc, where every suspending construct stores
    the next dispatch label and returns ACONT or AYIELD, and where both
    falling off the end of the switch and dispatching at the terminal label
    ADEL_FINALLY return ADONE via the aend epilogue;
  * child tasks as state machines stepped once per tick with the current
    value of the monotone clock (millis), producing a status, a successor
    state and a list of observable side-effect labels;
  * the composition operators andthen, aboth, auntil, aforatmost, aramp
    and alternate, and the top-level driver aevery, each transcribed from
    the corresponding C source.
-/

set_option linter.unusedVariables false

namespace Adel

/-- Status values returned by every Adel routine (class astatus in
src/adel.h lines 18-35): ANONE (default), ADONE (finished), ACONT
(continuing), AYIELD (yielded). -/
inductive Astatus where
  | ANONE
  | ADONE
  | ACONT
  | AYIELD
deriving DecidableEq

namespace Astatus

/-- astatus::done(): status is ADONE. -/
def done : Astatus → Bool
  | ADONE => true
  | _ => false

/-- astatus::cont(): status is ACONT. -/
def cont : Astatus → Bool
  | ACONT => true
  | _ => false

/-- astatus::yield(): status is AYIELD. -/
def yieldq : Astatus → Bool
  | AYIELD => true
  | _ => false

/-- astatus::notdone(): status is ACONT or AYIELD. -/
def notdone : Astatus → Bool
  | ACONT => true
  | AYIELD => true
  | _ => false

@[simp] theorem done_ANONE : ANONE.done = false := rfl
@[simp] theorem done_ADONE : ADONE.done = true := rfl
@[simp] theorem done_ACONT : ACONT.done = false := rfl
@[simp] theorem done_AYIELD : AYIELD.done = false := rfl
@[simp] theorem cont_ANONE : ANONE.cont = false := rfl
@[simp] theorem cont_ADONE : ADONE.cont = false := rfl
@[simp] theorem cont_ACONT : ACONT.cont = true := rfl
@[simp] theorem cont_AYIELD : AYIELD.cont = false := rfl
@[simp] theorem yieldq_ANONE : ANONE.yieldq = false := rfl
@[simp] theorem yieldq_ADONE : ADONE.yieldq = false := rfl
@[simp] theorem yieldq_ACONT : ACONT.yieldq = false := rfl
@[simp] theorem yieldq_AYIELD : AYIELD.yieldq = true := rfl
@[simp] theorem notdone_ANONE : ANONE.notdone = false := rfl
@[simp] theorem notdone_ADONE : ADONE.notdone = false := rfl
@[simp] theorem notdone_ACONT : ACONT.notdone = true := rfl
@[simp] theorem notdone_AYIELD : AYIELD.notdone = true := rfl

end Astatus

/-- The terminal dispatch label ADEL_FINALLY = 0xFFFF (src/adel.h line 9). -/
def ADEL_FINALLY : Nat := 65535

/-- The two kinds of suspending return a user-visible construct can make
from inside the switch of an Adel body: every construct in adel.h returns
either ACONT (adelay, andthen, await, aforatmost, aboth, auntil, afinish)
or AYIELD (ayourturn).  The aend epilogue, not a user construct, is the
only producer of ADONE. -/
inductive Susp where
  | scont
  | syield
deriving DecidableEq

/-- Result of executing the user-written cases of the switch of one Adel
body at a given dispatch label: either an explicit return from a suspending
construct (carrying the status kind, the stored next label adel_pc, the
updated persistent locals and the side effects executed on the way), or
control falling off the last user statement into the aend epilogue. -/
inductive BodyOut (σ : Type) where
  | ret (k : Susp) (pc : Nat) (st : σ) (effs : List Nat)
  | fall (st : σ) (effs : List Nat)

/-- One Adel function body as produced by abegin ... aend (src/adel.h lines
272-298): the user's switch cases, as a function of the dispatch label
adel_pc, the persistent locals captured in the closure, and the current
clock value. The cases are consulted only at labels other than
ADEL_FINALLY; the case for ADEL_FINALLY is the empty statement supplied by
aend itself. -/
structure AdelFun (σ : Type) where
  body : Nat → σ → Nat → BodyOut σ

/-- One invocation of LocalAdelAR::run on a body built by abegin/aend
(src/adel.h lines 272-298): dispatch on the stored adel_pc.  At
ADEL_FINALLY the switch jumps to the empty case inserted by aend and the
epilogue re-stores ADEL_FINALLY and returns ADONE with no side effects.
At any other label the user cases run; an explicit return propagates, and
falling off the end reaches the epilogue, which stores ADEL_FINALLY and
returns ADONE. -/
def astep {σ : Type} (f : AdelFun σ) (t : Nat) : Nat × σ → Astatus × (Nat × σ) × List Nat
  | (pc, s) =>
    if pc = ADEL_FINALLY then
      (.ADONE, (ADEL_FINALLY, s), [])
    else
      match f.body pc s t with
      | .ret .scont pc' s' e => (.ACONT, (pc', s'), e)
      | .ret .syield pc' s' e => (.AYIELD, (pc', s'), e)
      | .fall s' e => (.ADONE, (ADEL_FINALLY, s'), e)

/-- A task: one resumable invocation, viewed as a state machine.  step
takes the current clock value (millis()) and the persistent state and
returns the status reported for this tick, the successor state and the
labels of the observable side effects performed during the step. -/
structure Proc where
  St : Type
  init : St
  step : Nat → St → Astatus × St × List Nat

/-- The task obtained from an Adel function body: its state is the pair of
the resumption label adel_pc (starting at 0) and the persistent locals. -/
def procOfFun {σ : Type} (f : AdelFun σ) (s0 : σ) : Proc :=
  ⟨Nat × σ, (0, s0), fun t st => astep f t st⟩

/-- Step a task once per entry of a clock list, starting from an explicit
state; record the status and effects of each tick. -/
def traceFrom (p : Proc) : p.St → List Nat → List (Astatus × List Nat)
  | _, [] => []
  | s, t :: ts =>
    let r := p.step t s
    (r.1, r.2.2) :: traceFrom p r.2.1 ts

/-- Step a task once per entry of a clock list from its initial state. -/
def trace (p : Proc) (ts : List Nat) : List (Astatus × List Nat) :=
  traceFrom p p.init ts

theorem traceFrom_length (p : Proc) : ∀ (ts : List Nat) (s : p.St),
    (traceFrom p s ts).length = ts.length := by
  intro ts
  induction ts with
  | nil => intro s; rfl
  | cons t ts ih => intro s; simp [traceFrom, ih]

theorem map_const_of_length_eq {α β γ : Type} (c : γ) :
    ∀ (l1 : List α) (l2 : List β), l1.length = l2.length →
      l1.map (fun _ => c) = l2.map (fun _ => c) := by
  intro l1
  induction l1 with
  | nil => intro l2 h; cases l2 <;> simp_all
  | cons x xs ih =>
    intro l2 h
    cases l2 with
    | nil => simp at h
    | cons y ys => simp_all

/-- After an astep has produced ADONE, the stored label is ADEL_FINALLY. -/
theorem astep_done_pc {σ : Type} (f : AdelFun σ) (t : Nat) (st : Nat × σ)
    (h : (astep f t st).1 = .ADONE) : (astep f t st).2.1.1 = ADEL_FINALLY := by
  obtain ⟨pc, s⟩ := st
  by_cases hpc : pc = ADEL_FINALLY
  · simp [astep, hpc]
  · simp only [astep, hpc, if_false]
    rcases hb : f.body pc s t with ⟨k, pc', s', e⟩ | ⟨s', e⟩
    · cases k <;> simp_all [astep]
    · simp [astep, hb]

/-- A step dispatched at ADEL_FINALLY returns ADONE, keeps the state and
performs no side effect. -/
theorem astep_finally {σ : Type} (f : AdelFun σ) (t : Nat) (s : σ) :
    astep f t (ADEL_FINALLY, s) = (.ADONE, (ADEL_FINALLY, s), []) := by
  simp [astep]

/-- Once the label is ADEL_FINALLY, every later tick reports ADONE with no
side effects. -/
theorem traceFrom_finally {σ : Type} (f : AdelFun σ) (s0 s : σ) :
    ∀ ts : List Nat, traceFrom (procOfFun f s0) (ADEL_FINALLY, s) ts =
      ts.map (fun _ => (.ADONE, [])) := by
  intro ts
  induction ts with
  | nil => rfl
  | cons u us ih =>
    simp only [traceFrom, List.map_cons]
    rw [show (procOfFun f s0).step u (ADEL_FINALLY, s) =
        (.ADONE, (ADEL_FINALLY, s), []) from astep_finally f u s]
    exact congrArg _ ih

/-- Claim C1: idempotent completion.  For any Adel function body, once an
invocation of the step operation has returned ADONE (Finished), every
subsequent invocation, at any later clock values, returns ADONE again and
executes no statement of the body (the effect list of every subsequent
tick is empty): the aend epilogue stored ADEL_FINALLY into adel_pc before
returning ADONE, and a later invocation dispatches directly to the empty
ADEL_FINALLY case, which returns ADONE again. -/
theorem finished_step_idempotent {σ : Type} (f : AdelFun σ) (t : Nat)
    (st : Nat × σ) (h : (astep f t st).1 = .ADONE) (ts : List Nat) :
    traceFrom (procOfFun f st.2) (astep f t st).2.1 ts =
      ts.map (fun _ => (.ADONE, [])) := by
  have hpc : (astep f t st).2.1.1 = ADEL_FINALLY := astep_done_pc f t st h
  have hsplit : (astep f t st).2.1 = (ADEL_FINALLY, (astep f t st).2.1.2) := by
    rw [← hpc]
  rw [hsplit]
  exact traceFrom_finally f st.2 _ ts

/-- A body consisting of a single statement that runs one effect and falls
off the end of the switch: the image of an Adel function whose body has no
suspension point, used to witness the idempotence theorem. -/
def oneShotFun : AdelFun Unit :=
  ⟨fun _ s _ => .fall s [7]⟩

theorem finished_step_idempotent_witness :
    (astep oneShotFun 0 (0, ())).1 = .ADONE ∧
      traceFrom (procOfFun oneShotFun ()) (astep oneShotFun 0 (0, ())).2.1 [5, 6] =
        [(.ADONE, []), (.ADONE, [])] := by
  refine ⟨by decide, ?_⟩
  have h := finished_step_idempotent oneShotFun 0 (0, ()) (by decide) [5, 6]
  simpa using h

/-- Claim C10: an invocation during which the body executes afinish
(src/adel.h lines 507-510: adel_pc = ADEL_FINALLY; return ACONT) returns
ACONT, not ADONE; the task first reports ADONE on the following
invocation, which dispatches to the terminal case and returns ADONE
without executing any body statement (no side effects). -/
theorem afinish_two_phase {σ : Type} (f : AdelFun σ) (pc : Nat) (s s' : σ)
    (t : Nat) (e : List Nat) (hpc : ¬ pc = ADEL_FINALLY)
    (hc : f.body pc s t = .ret .scont ADEL_FINALLY s' e) :
    astep f t (pc, s) = (.ACONT, (ADEL_FINALLY, s'), e) ∧
      ∀ t', astep f t' (ADEL_FINALLY, s') = (.ADONE, (ADEL_FINALLY, s'), []) := by
  constructor
  · simp [astep, hpc, hc]
  · intro t'
    exact astep_finally f t' s'

/-- A body whose single case executes one effect and then afinish, used to
witness the afinish theorem. -/
def finishFun : AdelFun Unit :=
  ⟨fun pc s _ => if pc = 0 then .ret .scont ADEL_FINALLY s [3] else .fall s []⟩

theorem afinish_two_phase_witness :
    (¬ (0 : Nat) = ADEL_FINALLY) ∧
      astep finishFun 9 (0, ()) = (.ACONT, (ADEL_FINALLY, ()), [3]) ∧
      astep finishFun 10 (ADEL_FINALLY, ()) = (.ADONE, (ADEL_FINALLY, ()), []) := by
  refine ⟨by decide, ?_, ?_⟩
  · exact (afinish_two_phase finishFun 0 () () 9 [3] (by decide) rfl).1
  · exact (afinish_two_phase finishFun 0 () () 9 [3] (by decide) rfl).2 10

/-- The task built by the body "abegin: adelay(T); aend" (adelay,
src/adel.h lines 307-312): entering the construct stores the absolute
deadline adel_wait = millis() + T and then suspends with ACONT while
millis() < adel_wait; once the clock reaches the deadline control falls
through to aend, which reports ADONE.  The persistent local is adel_wait. -/
def adelayFun (T : Nat) : AdelFun Nat :=
  ⟨fun pc w t =>
    if pc = 0 then
      if t < t + T then .ret .scont 10 (t + T) [] else .fall (t + T) []
    else
      if t < w then .ret .scont 10 w [] else .fall w []⟩

/-- Delay task: Delay(T) of the specification. -/
def adelayTask (T : Nat) : Proc :=
  procOfFun (adelayFun T) 0

/-- Parent-side state of the function "abegin: andthen(A); andthen(B);
aend": before entry (adel_pc = 0), suspended inside the first andthen with
child A live in slot 0, suspended inside the second andthen with child B
live in slot 0, or past aend (adel_pc = ADEL_FINALLY, no child live). -/
inductive SeqSt (α β : Type) where
  | entry
  | runA (a : α)
  | runB (b : β)
  | finished

/-- The second andthen of the sequence (src/adel.h lines 321-328), entered
with the effects acc already performed this tick: step child B; while B
reports ACONT or AYIELD the parent suspends with ACONT keeping B; when B
reports done the child is cleared and control falls through to aend. -/
def seqStepB (α : Type) (B : Proc) (t : Nat) (b : B.St) (acc : List Nat) :
    Astatus × SeqSt α B.St × List Nat :=
  match B.step t b with
  | (sb, b', eb) =>
    if sb.notdone then (.ACONT, .runB b', acc ++ eb)
    else (.ADONE, .finished, acc ++ eb)

/-- The first andthen of the sequence: step child A; while A reports ACONT
or AYIELD the parent suspends with ACONT keeping A; when A reports done
the child is cleared and, in the same invocation, control falls into the
second andthen, which creates child B and steps it at once. -/
def seqStepA (A B : Proc) (t : Nat) (a : A.St) :
    Astatus × SeqSt A.St B.St × List Nat :=
  match A.step t a with
  | (sa, a', ea) =>
    if sa.notdone then (.ACONT, .runA a', ea)
    else seqStepB A.St B t B.init ea

/-- The whole function "abegin: andthen(A); andthen(B); aend" as a task:
on first entry the first andthen creates child A and steps it at once. -/
def seqAB (A B : Proc) : Proc where
  St := SeqSt A.St B.St
  init := .entry
  step := fun t s =>
    match s with
    | .entry => seqStepA A B t A.init
    | .runA a => seqStepA A B t a
    | .runB b => seqStepB A.St B t b []
    | .finished => (.ADONE, .finished, [])

/-- Task that reports ACONT with effect 11 on its first step and ADONE
with effect 12 on its second (it finishes after exactly 2 steps): the
image of a body with one suspension point between two effects. -/
def taskA2 : Proc :=
  procOfFun (⟨fun pc s _ =>
    if pc = 0 then .ret .scont 10 s [11] else .fall s [12]⟩ : AdelFun Unit) ()

/-- Task that reports ACONT with effects 21, 22 on its first two steps and
ADONE with effect 23 on its third (it finishes after exactly 3 steps). -/
def taskB3 : Proc :=
  procOfFun (⟨fun pc s _ =>
    if pc = 0 then .ret .scont 10 s [21]
    else if pc = 10 then .ret .scont 20 s [22]
    else .fall s [23]⟩ : AdelFun Unit) ()

/-- Claim C5 counterexample.  taskA2 finishes after exactly 2 steps and
taskB3 after exactly 3 steps, yet the sequence andthen(A); andthen(B)
reports ADONE on step 4, not step 5, and B's first effect 21 is observed
on step 2 (the same tick on which A reports Finished), not step 3: when
the first andthen sees A report done it clears A and falls directly into
the second andthen, which creates and steps B in the same invocation. -/
theorem andthen_claim_counterexample :
    trace taskA2 [0, 1] = [(.ACONT, [11]), (.ADONE, [12])] ∧
      trace taskB3 [0, 1, 2] = [(.ACONT, [21]), (.ACONT, [22]), (.ADONE, [23])] ∧
      trace (seqAB taskA2 taskB3) [0, 1, 2, 3, 4] =
        [(.ACONT, [11]), (.ACONT, [12, 21]), (.ACONT, [22]),
         (.ADONE, [23]), (.ADONE, [])] := by
  refine ⟨?_, ?_, ?_⟩ <;> rfl

/-- Claim C5, amended.  If A reports not-done (ACONT or AYIELD) on its
first step and Finished on its second, and B reports not-done on its first
two steps and Finished on its third, then the sequence andthen(A);
andthen(B) steps only A until A reports Finished and only then creates and
steps B — B's creation and first step happen in the same invocation in
which A reports Finished — so the whole construct finishes at exactly step
4 = 2 + 3 - 1, with A's effects observed in steps 1-2 and B's in steps
2-4. -/
theorem andthen_sequence_amended (A B : Proc) (t1 t2 t3 t4 : Nat)
    (a1 a2 : A.St) (b1 b2 b3 : B.St) (s1 sB1 sB2 : Astatus)
    (e1 e2 f1 f2 f3 : List Nat)
    (hA1 : A.step t1 A.init = (s1, a1, e1)) (hs1 : s1.notdone = true)
    (hA2 : A.step t2 a1 = (.ADONE, a2, e2))
    (hB1 : B.step t2 B.init = (sB1, b1, f1)) (hsB1 : sB1.notdone = true)
    (hB2 : B.step t3 b1 = (sB2, b2, f2)) (hsB2 : sB2.notdone = true)
    (hB3 : B.step t4 b2 = (.ADONE, b3, f3)) :
    trace (seqAB A B) [t1, t2, t3, t4] =
      [(.ACONT, e1), (.ACONT, e2 ++ f1), (.ACONT, f2), (.ADONE, f3)] := by
  simp [trace, traceFrom, seqAB, seqStepA, seqStepB,
    hA1, hs1, hA2, hB1, hsB1, hB2, hsB2, hB3]

theorem andthen_sequence_amended_witness :
    trace (seqAB taskA2 taskB3) [0, 1, 2, 3] =
      [(.ACONT, [11]), (.ACONT, [12] ++ [21]), (.ACONT, [22]), (.ADONE, [23])] := by
  exact andthen_sequence_amended taskA2 taskB3 0 1 2 3
    (10, ()) (ADEL_FINALLY, ()) (10, ()) (20, ()) (ADEL_FINALLY, ())
    .ACONT .ACONT .ACONT [11] [12] [21] [22] [23]
    rfl rfl rfl rfl rfl rfl rfl rfl

/-- Parent-side state of a two-child fork-join construct (aboth or
auntil): before entry, running with both children live in slots 0 and 1,
or past the construct and aend with both child records destroyed. -/
inductive Join2St (α β : Type) where
  | entry
  | running (a : α) (b : β)
  | finished

/-- One invocation of the body "abegin: aboth(A, B); aend" while inside
the construct (aboth, src/adel.h lines 376-387): step child A, then child
B; if either reports ACONT or AYIELD the parent suspends with ACONT
keeping both children; once both report done in the same invocation both
children are cleared and control falls through to aend. -/
def abothStep (A B : Proc) (t : Nat) (a : A.St) (b : B.St) :
    Astatus × Join2St A.St B.St × List Nat :=
  match A.step t a, B.step t b with
  | (sa, a', ea), (sb, b', eb) =>
    if sa.notdone || sb.notdone then (.ACONT, .running a' b', ea ++ eb)
    else (.ADONE, .finished, ea ++ eb)

/-- The function "abegin: aboth(A, B); aend" as a task: entering the
construct creates both children and steps them at once. -/
def abothProc (A B : Proc) : Proc where
  St := Join2St A.St B.St
  init := .entry
  step := fun t s =>
    match s with
    | .entry => abothStep A B t A.init B.init
    | .running a b => abothStep A B t a b
    | .finished => (.ADONE, .finished, [])

theorem abothProc_step_entry (A B : Proc) (t : Nat) :
    (abothProc A B).step t .entry = abothStep A B t A.init B.init := rfl

theorem abothProc_step_running (A B : Proc) (t : Nat) (a : A.St) (b : B.St) :
    (abothProc A B).step t (.running a b) = abothStep A B t a b := rfl

/-- Modelled from the spec row for Join-all, to be compared with the
transcription abothProc: on every tick both children are stepped, f before
g; the construct keeps reporting Continuing while either is not Finished,
and completes on the first tick on which both report Finished, after which
every later tick reports Finished with no effects. -/
def abothSpec : List (Astatus × List Nat) → List (Astatus × List Nat) →
    List (Astatus × List Nat)
  | (sa, ea) :: ta, (sb, eb) :: tb =>
    if sa.notdone || sb.notdone then (.ACONT, ea ++ eb) :: abothSpec ta tb
    else (.ADONE, ea ++ eb) :: ta.map (fun _ => (.ADONE, []))
  | _, _ => []

theorem traceFrom_aboth_finished (A B : Proc) : ∀ ts : List Nat,
    traceFrom (abothProc A B) .finished ts = ts.map (fun _ => (.ADONE, [])) := by
  intro ts
  induction ts with
  | nil => rfl
  | cons t ts ih => simp only [traceFrom, List.map_cons]; exact congrArg _ ih

theorem aboth_running_sim (A B : Proc) : ∀ (ts : List Nat) (a : A.St) (b : B.St),
    traceFrom (abothProc A B) (.running a b) ts =
      abothSpec (traceFrom A a ts) (traceFrom B b ts) := by
  intro ts
  induction ts with
  | nil => intro a b; rfl
  | cons t ts ih =>
    intro a b
    rcases hA : A.step t a with ⟨sa, a', ea⟩
    rcases hB : B.step t b with ⟨sb, b', eb⟩
    have hlen : (traceFrom A a' ts).map (fun _ => ((Astatus.ADONE : Astatus), ([] : List Nat))) =
        ts.map (fun _ => (.ADONE, [])) :=
      map_const_of_length_eq _ _ _ (traceFrom_length A ts a')
    by_cases h : (sa.notdone || sb.notdone) = true
    · simp [traceFrom, abothProc_step_running, abothStep, hA, hB, h, abothSpec, ih]
    · simp [traceFrom, abothProc_step_running, abothStep, hA, hB, h, abothSpec,
        traceFrom_aboth_finished, hlen]

/-- Claim C6: Join-all (aboth).  First conjunct: for every pair of child
tasks and every clock list, the trace of "abegin: aboth(A, B); aend"
coincides with the Join-all specification: on every tick both children are
stepped, A before B (the tick's effects are A's followed by B's, and both
children advance along the full clock list — neither is ever cancelled);
the construct reports Continuing while at least one child is not Finished
and completes exactly on the first tick on which both report Finished.
Second conjunct: for Delay children of 300 and 500 time units started at
clock 0, the construct reports Finished for the first time on the tick at
clock 500 — no earlier than 500 units after entry. -/
theorem aboth_joinall_spec :
    (∀ (A B : Proc) (ts : List Nat),
        trace (abothProc A B) ts = abothSpec (trace A ts) (trace B ts)) ∧
      trace (abothProc (adelayTask 300) (adelayTask 500)) [0, 100, 200, 300, 400, 500] =
        [(.ACONT, []), (.ACONT, []), (.ACONT, []), (.ACONT, []), (.ACONT, []),
         (.ADONE, [])] := by
  constructor
  · intro A B ts
    cases ts with
    | nil => rfl
    | cons t ts =>
      have h : traceFrom (abothProc A B) .entry (t :: ts) =
          traceFrom (abothProc A B) (.running A.init B.init) (t :: ts) := rfl
      show traceFrom (abothProc A B) .entry (t :: ts) = _
      rw [h, aboth_running_sim]
      rfl
  · rfl

/-- One invocation of the body "abegin: auntil(A, B) {true block} else
{false block}; aend" while inside the construct (auntil, src/adel.h lines
420-436): step child A, then child B; if both report ACONT or AYIELD the
parent suspends with ACONT keeping both children.  Otherwise both children
are cleared, adel_pc selects the branch according to whether A reported
done, the selected branch body runs, and control falls through to aend —
all in the same invocation. -/
def auntilStep (A B : Proc) (brT brF : List Nat) (t : Nat) (a : A.St) (b : B.St) :
    Astatus × Join2St A.St B.St × List Nat :=
  match A.step t a, B.step t b with
  | (sa, a', ea), (sb, b', eb) =>
    if sa.notdone && sb.notdone then (.ACONT, .running a' b', ea ++ eb)
    else (.ADONE, .finished, ea ++ eb ++ (if sa.done then brT else brF))

/-- The function "abegin: auntil(A, B) {brT} else {brF}; aend" as a task,
where the two branch bodies are straight-line effect lists. -/
def auntilProc (A B : Proc) (brT brF : List Nat) : Proc where
  St := Join2St A.St B.St
  init := .entry
  step := fun t s =>
    match s with
    | .entry => auntilStep A B brT brF t A.init B.init
    | .running a b => auntilStep A B brT brF t a b
    | .finished => (.ADONE, .finished, [])

theorem auntilProc_step_running (A B : Proc) (brT brF : List Nat) (t : Nat)
    (a : A.St) (b : B.St) :
    (auntilProc A B brT brF).step t (.running a b) = auntilStep A B brT brF t a b := rfl

/-- Modelled from the spec row for Join-any, to be compared with the
transcription auntilProc: both children are stepped each tick while both
are not Finished; the construct completes on the first tick on which
either reports Finished, emitting the true branch when the first operand
finished and the else branch otherwise, and every later tick reports
Finished with no effects (both children are destroyed at completion). -/
def auntilSpec (brT brF : List Nat) : List (Astatus × List Nat) →
    List (Astatus × List Nat) → List (Astatus × List Nat)
  | (sa, ea) :: ta, (sb, eb) :: tb =>
    if sa.notdone && sb.notdone then (.ACONT, ea ++ eb) :: auntilSpec brT brF ta tb
    else (.ADONE, ea ++ eb ++ (if sa.done then brT else brF)) ::
      ta.map (fun _ => (.ADONE, []))
  | _, _ => []

theorem traceFrom_auntil_finished (A B : Proc) (brT brF : List Nat) :
    ∀ ts : List Nat,
      traceFrom (auntilProc A B brT brF) .finished ts =
        ts.map (fun _ => (.ADONE, [])) := by
  intro ts
  induction ts with
  | nil => rfl
  | cons t ts ih => simp only [traceFrom, List.map_cons]; exact congrArg _ ih

theorem auntil_running_sim (A B : Proc) (brT brF : List Nat) :
    ∀ (ts : List Nat) (a : A.St) (b : B.St),
      traceFrom (auntilProc A B brT brF) (.running a b) ts =
        auntilSpec brT brF (traceFrom A a ts) (traceFrom B b ts) := by
  intro ts
  induction ts with
  | nil => intro a b; rfl
  | cons t ts ih =>
    intro a b
    rcases hA : A.step t a with ⟨sa, a', ea⟩
    rcases hB : B.step t b with ⟨sb, b', eb⟩
    have hlen : (traceFrom A a' ts).map (fun _ => ((Astatus.ADONE : Astatus), ([] : List Nat))) =
        ts.map (fun _ => (.ADONE, [])) :=
      map_const_of_length_eq _ _ _ (traceFrom_length A ts a')
    by_cases h : (sa.notdone && sb.notdone) = true
    · simp [traceFrom, auntilProc_step_running, auntilStep, hA, hB, h, auntilSpec, ih]
    · simp [traceFrom, auntilProc_step_running, auntilStep, hA, hB, h, auntilSpec,
        traceFrom_auntil_finished, hlen]

/-- Claim C2: Join-any (auntil).  First conjunct: for every pair of child
tasks, branch bodies and clock list, the trace of "abegin: auntil(A, B)
{brT} else {brF}; aend" coincides with the Join-any specification: on
every tick both children are stepped (A before B) while both are not
Finished; the construct completes on the first tick on which at least one
child reports Finished; on that tick both child records are destroyed and
exactly one branch runs, the true branch exactly when A reported Finished
on that tick; afterwards no further effect is produced (in particular the
cancelled non-finisher never runs again).  Second conjunct: for Delay
children of 300 and 500 units started at clock 0, the construct finishes
on the tick at clock 300 and emits the first-operand-finished branch, and
the tick after completion shows no further effect from the cancelled
500-unit child. -/
theorem auntil_joinany_spec :
    (∀ (A B : Proc) (brT brF : List Nat) (ts : List Nat),
        trace (auntilProc A B brT brF) ts =
          auntilSpec brT brF (trace A ts) (trace B ts)) ∧
      trace (auntilProc (adelayTask 300) (adelayTask 500) [1] [2]) [0, 100, 200, 300, 400] =
        [(.ACONT, []), (.ACONT, []), (.ACONT, []), (.ADONE, [1]), (.ADONE, [])] := by
  constructor
  · intro A B brT brF ts
    cases ts with
    | nil => rfl
    | cons t ts =>
      have h : traceFrom (auntilProc A B brT brF) .entry (t :: ts) =
          traceFrom (auntilProc A B brT brF) (.running A.init B.init) (t :: ts) := rfl
      show traceFrom (auntilProc A B brT brF) .entry (t :: ts) = _
      rw [h, auntil_running_sim]
      rfl
  · rfl

/-- Parent-side state of the bounded-race construct: before entry, running
with the absolute deadline adel_wait and the child live in slot 0, or past
the construct and aend with the child record destroyed. -/
inductive RaceSt (α : Type) where
  | entry
  | running (wait : Nat) (a : α)
  | finished

/-- One invocation of the body "abegin: aforatmost(T, A) {brTO}; aend"
while inside the construct (aforatmost, src/adel.h lines 354-368): step
child A; if A reports ACONT or AYIELD and the clock has not reached the
deadline, the parent suspends with ACONT.  Otherwise the child is cleared,
adel_pc records whether A reported done, the block after the construct
runs exactly when it did not (the timeout interrupted A), and control
falls through to aend — all in the same invocation. -/
def aforatmostStep (A : Proc) (brTO : List Nat) (t w : Nat) (a : A.St) :
    Astatus × RaceSt A.St × List Nat :=
  match A.step t a with
  | (sa, a', ea) =>
    if sa.notdone && decide (t < w) then (.ACONT, .running w a', ea)
    else (.ADONE, .finished, ea ++ (if sa.done then [] else brTO))

/-- The function "abegin: aforatmost(T, A) {brTO}; aend" as a task:
entering the construct creates the child, stores the deadline
adel_wait = millis() + T computed once at entry, and steps the child at
once. -/
def aforatmostProc (T : Nat) (A : Proc) (brTO : List Nat) : Proc where
  St := RaceSt A.St
  init := .entry
  step := fun t s =>
    match s with
    | .entry => aforatmostStep A brTO t (t + T) A.init
    | .running w a => aforatmostStep A brTO t w a
    | .finished => (.ADONE, .finished, [])

theorem aforatmostProc_step_running (T : Nat) (A : Proc) (brTO : List Nat)
    (t w : Nat) (a : A.St) :
    (aforatmostProc T A brTO).step t (.running w a) = aforatmostStep A brTO t w a := rfl

/-- Modelled from the spec row for Bounded-race, to be compared with the
transcription aforatmostProc; consumes the clock list zipped with the
child's trace: the construct continues exactly while the child is not
Finished and the clock has not reached the deadline; it completes when the
child reports Finished or the deadline is reached, whichever happens
first, the timed-out block running exactly when the child did not report
Finished on the final tick; after completion every tick reports Finished
with no effects (the cancelled child never runs again). -/
def aforatmostSpec (w : Nat) (brTO : List Nat) :
    List (Nat × Astatus × List Nat) → List (Astatus × List Nat)
  | [] => []
  | (t, sa, ea) :: rest =>
    if sa.notdone && decide (t < w) then (.ACONT, ea) :: aforatmostSpec w brTO rest
    else (.ADONE, ea ++ (if sa.done then [] else brTO)) ::
      rest.map (fun _ => (.ADONE, []))

theorem traceFrom_aforatmost_finished (T : Nat) (A : Proc) (brTO : List Nat) :
    ∀ ts : List Nat,
      traceFrom (aforatmostProc T A brTO) .finished ts =
        ts.map (fun _ => (.ADONE, [])) := by
  intro ts
  induction ts with
  | nil => rfl
  | cons t ts ih => simp only [traceFrom, List.map_cons]; exact congrArg _ ih

theorem aforatmost_running_sim (T : Nat) (A : Proc) (brTO : List Nat) (w : Nat) :
    ∀ (ts : List Nat) (a : A.St),
      traceFrom (aforatmostProc T A brTO) (.running w a) ts =
        aforatmostSpec w brTO (ts.zip (traceFrom A a ts)) := by
  intro ts
  induction ts with
  | nil => intro a; rfl
  | cons t ts ih =>
    intro a
    rcases hA : A.step t a with ⟨sa, a', ea⟩
    by_cases h : (sa.notdone && decide (t < w)) = true
    · simp [traceFrom, aforatmostProc_step_running, aforatmostStep, hA, h,
        aforatmostSpec, ih, List.zip]
    · simp [traceFrom, aforatmostProc_step_running, aforatmostStep, hA, h,
        aforatmostSpec, traceFrom_aforatmost_finished, traceFrom_length]

/-- Claim C3: Bounded-race (aforatmost).  First conjunct: for every child
task, timeout, block body and nonempty clock list, the trace of "abegin:
aforatmost(T, A) {brTO}; aend" coincides with the Bounded-race
specification against the deadline t0 + T computed once at entry: the
construct returns Continuing exactly while the child is not Finished and
the clock has not reached the deadline; it completes when the child
reports Finished or the deadline is reached, whichever happens first, and
the block after the construct runs exactly when the timeout interrupted
the child (the child did not report Finished on the final tick) — the two
outcomes are mutually exclusive, and the cancelled child produces no
further effect.  Second and third conjuncts: with deadline 250, a Delay
child of 400 units selects the timed-out branch (block effect 9 emitted on
the deciding tick at clock 250), while a Delay child of 100 units
completes at clock 100 without emitting the block. -/
theorem aforatmost_boundedrace_spec :
    (∀ (T : Nat) (A : Proc) (brTO : List Nat) (t0 : Nat) (ts : List Nat),
        trace (aforatmostProc T A brTO) (t0 :: ts) =
          aforatmostSpec (t0 + T) brTO ((t0 :: ts).zip (trace A (t0 :: ts)))) ∧
      trace (aforatmostProc 250 (adelayTask 400) [9]) [0, 50, 100, 150, 200, 250, 300] =
        [(.ACONT, []), (.ACONT, []), (.ACONT, []), (.ACONT, []), (.ACONT, []),
         (.ADONE, [9]), (.ADONE, [])] ∧
      trace (aforatmostProc 250 (adelayTask 100) [9]) [0, 50, 100, 150] =
        [(.ACONT, []), (.ACONT, []), (.ADONE, []), (.ADONE, [])] := by
  refine ⟨?_, rfl, rfl⟩
  intro T A brTO t0 ts
  have h : traceFrom (aforatmostProc T A brTO) .entry (t0 :: ts) =
      traceFrom (aforatmostProc T A brTO) (.running (t0 + T) A.init) (t0 :: ts) := rfl
  show traceFrom (aforatmostProc T A brTO) .entry (t0 :: ts) = _
  rw [h, aforatmost_running_sim]
  rfl

/-- Parent-side state of the function "abegin: alternate(F, G); aend" in
the final revision (alternate, src/adel.h lines 469-489): the stored
adel_pc is alaterstep(0) (F holds the turn), alaterstep(1) (G holds the
turn) or alaterstep(2) (the construct is about to end), with both child
records live in slots 0 and 1 throughout (alternate never clears them);
past aend the label is ADEL_FINALLY. -/
inductive Alt4St (α β : Type) where
  | entry
  | at0 (a : α) (b : β)
  | at1 (a : α) (b : β)
  | at2 (a : α) (b : β)
  | fin (a : α) (b : β)

/-- The code from the label alaterstep(1): step child G; on ACONT suspend
keeping the current label — which is alaterstep(1) when dispatched there,
but alaterstep(2) when this code is reached by falling through from the
F case after F reported done (afterFDone); on AYIELD store alaterstep(0)
and suspend; otherwise fall through the label alaterstep(2) and past the
construct to aend.  acc holds the effects already performed this tick. -/
def alt4GCode (A B : Proc) (t : Nat) (a : A.St) (b : B.St) (acc : List Nat)
    (afterFDone : Bool) : Astatus × Alt4St A.St B.St × List Nat :=
  match B.step t b with
  | (sg, b', eg) =>
    if sg.cont then
      (.ACONT, if afterFDone then .at2 a b' else .at1 a b', acc ++ eg)
    else if sg.yieldq then (.ACONT, .at0 a b', acc ++ eg)
    else (.ADONE, .fin a b', acc ++ eg)

/-- The code from the label alaterstep(0): step child F; on ACONT suspend
keeping the label; on AYIELD store alaterstep(1) and suspend; otherwise
(F reported done) store alaterstep(2) and fall through into the G case in
the same invocation. -/
def alt4FCode (A B : Proc) (t : Nat) (a : A.St) (b : B.St) :
    Astatus × Alt4St A.St B.St × List Nat :=
  match A.step t a with
  | (sf, a', ef) =>
    if sf.cont then (.ACONT, .at0 a' b, ef)
    else if sf.yieldq then (.ACONT, .at1 a' b, ef)
    else alt4GCode A B t a' b ef true

/-- The function "abegin: alternate(F, G); aend" of the final revision as
a task: entry stores alaterstep(0), creates both children and falls into
the F case; dispatch at alaterstep(2) falls past the construct to aend,
stepping neither child. -/
def alternateV4 (A B : Proc) : Proc where
  St := Alt4St A.St B.St
  init := .entry
  step := fun t s =>
    match s with
    | .entry => alt4FCode A B t A.init B.init
    | .at0 a b => alt4FCode A B t a b
    | .at1 a b => alt4GCode A B t a b [] false
    | .at2 a b => (.ADONE, .fin a b, [])
    | .fin a b => (.ADONE, .fin a b, [])

/-- Task whose first step reports ADONE with effect 101: the image of a
body with no suspension point, which finishes on its first invocation. -/
def oneShotF : Proc :=
  procOfFun (⟨fun _ s _ => .fall s [101]⟩ : AdelFun Unit) ()

/-- Task that reports ACONT with effect 202 on every step (it never
finishes while observed). -/
def chattyG : Proc :=
  procOfFun (⟨fun _ s _ => .ret .scont 10 s [202]⟩ : AdelFun Unit) ()

/-- Claim C4 counterexample.  oneShotF reports Finished on the very first
tick, yet the alternate construct of src/adel.h does not end on that tick:
it reports Continuing (the construct ends only on the next tick), and the
other side chattyG is stepped on the very tick F reported Finished (its
effect 202 appears after F's 101) — because when F reports done the F case
stores alaterstep(2) and falls through into the G case in the same
invocation instead of leaving the construct. -/
theorem alternate_claim_counterexample :
    trace oneShotF [0] = [(.ADONE, [101])] ∧
      trace (alternateV4 oneShotF chattyG) [0, 1] =
        [(.ACONT, [101, 202]), (.ADONE, [])] := by
  exact ⟨rfl, rfl⟩

/-- Claim C4, amended, for the alternate construct of src/adel.h.  While
the side holding the turn reports Continuing it keeps the turn and the
other side is not stepped; when it reports Yielded the turn flips to the
other side starting the next tick; when G (holding the turn) reports
Finished the construct ends on that same tick.  But when F (holding the
turn) reports Finished, G is stepped once more in the same invocation:
if G's extra step reports Finished the construct ends that tick; if it
reports Continuing the construct reports Continuing with adel_pc at
alaterstep(2) and ends on the following tick, stepping neither side; if it
reports Yielded the turn returns to F.  A dispatch at alaterstep(2) ends
the construct with no stepping and no effects. -/
theorem alternate_v4_amended (A B : Proc) (t : Nat) (a a' : A.St) (b b' : B.St)
    (sf sg : Astatus) (ef eg : List Nat)
    (hF : A.step t a = (sf, a', ef)) (hG : B.step t b = (sg, b', eg)) :
    ((alternateV4 A B).step t (.at0 a b) =
        if sf.cont then (.ACONT, .at0 a' b, ef)
        else if sf.yieldq then (.ACONT, .at1 a' b, ef)
        else if sg.cont then (.ACONT, .at2 a' b', ef ++ eg)
        else if sg.yieldq then (.ACONT, .at0 a' b', ef ++ eg)
        else (.ADONE, .fin a' b', ef ++ eg)) ∧
      ((alternateV4 A B).step t (.at1 a b) =
        if sg.cont then (.ACONT, .at1 a b', eg)
        else if sg.yieldq then (.ACONT, .at0 a b', eg)
        else (.ADONE, .fin a b', eg)) ∧
      ((alternateV4 A B).step t (.at2 a b) = (.ADONE, .fin a b, [])) := by
  refine ⟨?_, ?_, rfl⟩
  · show alt4FCode A B t a b = _
    rw [alt4FCode, hF]
    by_cases hc : sf.cont = true
    · simp [hc]
    · by_cases hy : sf.yieldq = true
      · simp [hc, hy]
      · simp only [hc, hy, if_false, alt4GCode, hG]
        by_cases hgc : sg.cont = true
        · simp [hgc]
        · by_cases hgy : sg.yieldq = true
          · simp [hgc, hgy]
          · simp [hgc, hgy]
  · show alt4GCode A B t a b [] false = _
    rw [alt4GCode, hG]
    by_cases hgc : sg.cont = true
    · simp [hgc]
    · by_cases hgy : sg.yieldq = true
      · simp [hgc, hgy]
      · simp [hgc, hgy]

theorem alternate_v4_amended_witness :
    (alternateV4 oneShotF chattyG).step 0
        (.at0 oneShotF.init chattyG.init) =
      (.ACONT, .at2 (ADEL_FINALLY, ()) (10, ()), [101] ++ [202]) := by
  have h := (alternate_v4_amended oneShotF chattyG 0
    oneShotF.init (ADEL_FINALLY, ()) chattyG.init (10, ())
    .ADONE .ACONT [101] [202] rfl rfl).1
  simpa using h

/-- A task of the earlier revision src/unnamed/part_001, whose body may
read and write the val slot of its caller's activation record (acallerar,
part_001 line 121): step takes the clock, the state and the current value
of the caller's val slot, and returns the status, the successor state, the
slot's new value and the effects. -/
structure MProc where
  St : Type
  init : St
  step : Nat → St → Nat → Astatus × St × Nat × List Nat

/-- Result of the user cases of a part_001 body: as BodyOut, but carrying
the caller's val slot (written by ayourturn(v), part_001 lines 429-434,
and read by amyturn, line 440). -/
inductive MBodyOut (σ : Type) where
  | ret (k : Susp) (pc : Nat) (st : σ) (mb : Nat) (effs : List Nat)
  | fall (st : σ) (mb : Nat) (effs : List Nat)

/-- A part_001 Adel function body: the user switch cases as a function of
the dispatch label, the persistent locals, the clock and the caller's val
slot. -/
structure MFun (σ : Type) where
  body : Nat → σ → Nat → Nat → MBodyOut σ

/-- One invocation of a part_001 body, as astep but threading the caller's
val slot; the terminal dispatch and the aend epilogue never touch the
slot (part_001 lines 228-245). -/
def mastep {σ : Type} (f : MFun σ) (t : Nat) (v : Nat) :
    Nat × σ → Astatus × (Nat × σ) × Nat × List Nat
  | (pc, s) =>
    if pc = ADEL_FINALLY then
      (.ADONE, (ADEL_FINALLY, s), v, [])
    else
      match f.body pc s t v with
      | .ret .scont pc' s' v' e => (.ACONT, (pc', s'), v', e)
      | .ret .syield pc' s' v' e => (.AYIELD, (pc', s'), v', e)
      | .fall s' v' e => (.ADONE, (ADEL_FINALLY, s'), v', e)

/-- The mailbox-aware task built from a part_001 body. -/
def mprocOfFun {σ : Type} (f : MFun σ) (s0 : σ) : MProc :=
  ⟨Nat × σ, (0, s0), fun t st v => mastep f t v st⟩

/-- Parent-side state of "abegin: alternate(F, G); aend" in the part_001
revision (alternate, part_001 lines 401-422): a single dispatch label with
the turn held in the persistent local adel_condition (true = F's turn),
both children live, and the parent activation record's val slot — the turn
mailbox shared by both children — alongside; or past the construct. -/
inductive Alt3St (α β : Type) where
  | entry
  | run (cond : Bool) (a : α) (b : β) (val : Nat)
  | fin

/-- One invocation inside the part_001 alternate: step the side selected
by adel_condition, handing it the parent's val slot and storing the slot
value it returns; on ACONT keep the turn and suspend; on AYIELD flip
adel_condition and suspend; otherwise (the stepped side reported done)
fall out of the construct to aend in the same invocation, without stepping
the other side. -/
def alt3Code (F G : MProc) (t : Nat) (cond : Bool) (a : F.St) (b : G.St)
    (v : Nat) : Astatus × Alt3St F.St G.St × List Nat :=
  if cond then
    match F.step t a v with
    | (sf, a', v', ef) =>
      if sf.cont then (.ACONT, .run true a' b v', ef)
      else if sf.yieldq then (.ACONT, .run false a' b v', ef)
      else (.ADONE, .fin, ef)
  else
    match G.step t b v with
    | (sg, b', v', eg) =>
      if sg.cont then (.ACONT, .run false a b' v', eg)
      else if sg.yieldq then (.ACONT, .run true a b' v', eg)
      else (.ADONE, .fin, eg)

/-- The function "abegin: alternate(F, G); aend" of the part_001 revision
as a task: entry initializes both children, sets adel_condition to true,
and falls into the dispatch case; the parent's val slot starts at 0 (the
AdelAR constructor, part_001 line 35). -/
def alternateV3 (F G : MProc) : Proc where
  St := Alt3St F.St G.St
  init := .entry
  step := fun t s =>
    match s with
    | .entry => alt3Code F G t true F.init G.init 0
    | .run cond a b v => alt3Code F G t cond a b v
    | .fin => (.ADONE, .fin, [])

/-- The producer side of the turn-exchange scenario: the image of a
part_001 body "abegin: ayourturn(7); emit(1000 + amyturn); afinish; aend":
on its first turn it writes 7 into the caller's val slot and yields; when
the turn comes back it reads the slot, emits 1000 plus the value read, and
finishes via afinish. -/
def pingF : MProc :=
  mprocOfFun (⟨fun pc s _ v =>
    if pc = 0 then .ret .syield 10 s 7 []
    else .ret .scont ADEL_FINALLY s v [1000 + v]⟩ : MFun Unit) ()

/-- The consumer side: the image of a part_001 body "abegin:
emit(2000 + amyturn); ayourturn(3); ...; aend": on its first turn it reads
the caller's val slot, emits 2000 plus the value read, writes 3 into the
slot and yields; it is never stepped again in the scenario. -/
def pongG : MProc :=
  mprocOfFun (⟨fun pc s _ v =>
    if pc = 0 then .ret .syield 20 s 3 [2000 + v]
    else .fall s v []⟩ : MFun Unit) ()

/-- Claim C7: the alternation turn mailbox.  The turn value is the single
val slot of the parent construct's activation record (modelled as the val
component of the alternateV3 state, not part of either child's state);
ayourturn(v) writes it before yielding, the side taking the turn reads it,
and successive writes overwrite.  In the concrete exchange: pingF writes 7
and yields on tick 1; pongG, stepped next, reads 7 (it emits 2007), writes
3 and yields; pingF, regaining the turn, reads 3 (it emits 1003) and runs
afinish, reporting Continuing; on the next tick pingF reports Finished and
the whole construct ends, pongG never being stepped again even though it
was mid-turn. -/
theorem alternate_mailbox_exchange :
    trace (alternateV3 pingF pongG) [0, 1, 2, 3] =
      [(.ACONT, []), (.ACONT, [2007]), (.ACONT, [1003]), (.ADONE, [])] ∧
      (pingF.step 0 pingF.init 0).2.2.1 = 7 ∧
      (pongG.step 1 pongG.init 7).2.2.1 = 3 := by
  exact ⟨rfl, rfl, rfl⟩

/-- State of one aevery call site (aevery, src/adel.h lines 216-227): the
runtime's root slot (empty when the function is not running), the static
deadline variable anexttime, and whether the static initializer
"anexttime = millis() + T" has already run (it runs on the first tick
only). -/
structure EveryState (σ : Type) where
  root : Option σ
  nexttime : Nat
  started : Bool

/-- The state of an aevery call site before its first tick. -/
def aeveryInit (σ : Type) : EveryState σ := ⟨none, 0, false⟩

/-- One tick of aevery(T, f): on the first tick the static deadline is
initialized to millis() + T; if the root slot is empty a fresh instance of
f is created there; the root is stepped once; if it reported done and the
clock has passed the deadline, the whole tree is destroyed (the slot
becomes empty, so the next tick creates a fresh instance) and the deadline
is advanced by exactly T from its previous value (anexttime += T).
Returns the new state, whether a fresh instance was created this tick,
whether the slot was reset this tick, and the status and effects of the
step. -/
def aeveryTick (T : Nat) (f : Proc) (t : Nat) (st : EveryState f.St) :
    EveryState f.St × Bool × Bool × Astatus × List Nat :=
  let nt := if st.started then st.nexttime else t + T
  let created := st.root.isNone
  let s0 := st.root.getD f.init
  match f.step t s0 with
  | (s, s', e) =>
    let reset := s.done && decide (nt < t)
    (⟨if reset then none else some s', if reset then nt + T else nt, true⟩,
      created, reset, s, e)

/-- Run an aevery call site over a clock list, collecting for every tick
whether a fresh instance was created and whether the slot was reset. -/
def aeveryRun (T : Nat) (f : Proc) : EveryState f.St → List Nat →
    EveryState f.St × List (Bool × Bool)
  | st, [] => (st, [])
  | st, t :: ts =>
    match h : aeveryTick T f t st with
    | (st', created, reset, _, _) =>
      match aeveryRun T f st' ts with
      | (last, evs) => (last, (created, reset) :: evs)

/-- Task that reports ADONE on any step whose clock is at least 25 and
ACONT otherwise: the image of the body "abegin: await(millis() >= 25);
aend". -/
def awaitTask : Proc :=
  procOfFun (⟨fun _ s t =>
    if 25 ≤ t then .fall s [] else .ret .scont 10 s []⟩ : AdelFun Unit) ()

/-- Claim C8 counterexample.  With interval T = 10 and the await-style
root above, ticks at clocks 0, 25, 26, 28 create fresh instances on the
ticks at clocks 0, 26 and 28: the restart at clock 28 happens only 2 < 10
units after the previous restart at clock 26, because the deadline is
advanced by anexttime += T from its previous value (10 → 20 → 30), not
re-armed from the restart moment, so after the first instance overruns its
deadline the driver restarts faster than the interval. -/
theorem aevery_claim_counterexample :
    ((aeveryRun 10 awaitTask (aeveryInit awaitTask.St) [0, 25, 26, 28]).2.map
        Prod.fst = [true, false, true, true]) ∧
      28 - 26 < 10 := by
  exact ⟨rfl, by decide⟩

theorem aeveryRun_nexttime (T : Nat) (f : Proc) : ∀ (ts : List Nat)
    (st : EveryState f.St), st.started = true →
    (aeveryRun T f st ts).1.nexttime =
      st.nexttime + T * ((aeveryRun T f st ts).2.map Prod.snd).count true := by
  intro ts
  induction ts with
  | nil => intro st h; simp [aeveryRun]
  | cons t ts ih =>
    intro st h
    rcases hstep : f.step t (st.root.getD f.init) with ⟨s, s', e⟩
    by_cases hr : (s.done && decide (st.nexttime < t)) = true
    · have htick : aeveryTick T f t st =
          (⟨none, st.nexttime + T, true⟩, st.root.isNone, true, s, e) := by
        simp [aeveryTick, h, hstep, hr]
      have := ih ⟨none, st.nexttime + T, true⟩ rfl
      simp [aeveryRun, htick, this, List.count_cons, Nat.mul_add, Nat.mul_one]
      ring
    · have htick : aeveryTick T f t st =
          (⟨some s', st.nexttime, true⟩, st.root.isNone, false, s, e) := by
        simp [aeveryTick, h, hstep, hr]
      have := ih ⟨some s', st.nexttime, true⟩ rfl
      simp [aeveryRun, htick, this, List.count_cons]

/-- Claim C8, amended.  First conjunct: a fresh root instance is created
on a tick exactly when the root slot is empty at that tick — the first
tick, and each tick following a reset — so while the previous instance is
live it is never recreated.  Second conjunct: while an instance is live it
is stepped exactly once per tick, and the slot is emptied (so that the
next tick creates a fresh instance) exactly when the instance reported
done and the clock has passed the current deadline.  Third conjunct: the
deadline after any run equals first-tick clock + T plus T for every reset
performed — it is advanced by exactly T from its previous value at each
reset (fixed-rate catch-up scheduling), not re-armed from the moment of
the restart. -/
theorem aevery_amended :
    (∀ (T : Nat) (f : Proc) (t : Nat) (st : EveryState f.St),
        (aeveryTick T f t st).2.1 = st.root.isNone) ∧
      (∀ (T : Nat) (f : Proc) (t : Nat) (st : EveryState f.St) (s : f.St),
        st.root = some s →
          (aeveryTick T f t st).1.root =
            if (f.step t s).1.done &&
                decide ((if st.started then st.nexttime else t + T) < t) then
              none
            else some (f.step t s).2.1) ∧
      (∀ (T : Nat) (f : Proc) (c : Nat) (ts : List Nat),
        (aeveryRun T f (aeveryInit f.St) (c :: ts)).1.nexttime =
          c + T + T * ((aeveryRun T f (aeveryInit f.St) (c :: ts)).2.map
            Prod.snd).count true) := by
  refine ⟨?_, ?_, ?_⟩
  · intro T f t st
    rcases hstep : f.step t (st.root.getD f.init) with ⟨s, s', e⟩
    simp [aeveryTick, hstep]
  · intro T f t st s hroot
    rcases hstep : f.step t s with ⟨sa, s', e⟩
    by_cases hr : (sa.done && decide ((if st.started then st.nexttime else t + T) < t)) = true
    · simp [aeveryTick, hroot, hstep, hr]
    · simp [aeveryTick, hroot, hstep, hr]
  · intro T f c ts
    rcases hstep : f.step c f.init with ⟨s, s', e⟩
    have hfalse : (s.done && decide (c + T < c)) = false := by
      have : ¬ (c + T < c) := by omega
      simp [this]
    have htick : aeveryTick T f c (aeveryInit f.St) =
        (⟨some s', c + T, true⟩, true, false, s, e) := by
      simp [aeveryTick, aeveryInit, hstep, hfalse]
    have := aeveryRun_nexttime T f ts ⟨some s', c + T, true⟩ rfl
    simp [aeveryRun, htick, this, List.count_cons]

theorem aevery_amended_witness :
    (aeveryTick 10 awaitTask 5 ⟨some awaitTask.init, 15, true⟩).1.root =
      some (awaitTask.step 5 awaitTask.init).2.1 := by
  have h := aevery_amended.2.1 10 awaitTask 5 ⟨some awaitTask.init, 15, true⟩
    awaitTask.init rfl
  rw [h]
  exact rfl

/-- The Arduino map(x, in_min, in_max, out_min, out_max) function on long
integers: (x - in_min) * (out_max - out_min) / (in_max - in_min) + out_min
with C integer division (truncation toward zero). -/
def arduinoMap (x inMin inMax outMin outMax : Int) : Int :=
  Int.tdiv ((x - inMin) * (outMax - outMin)) (inMax - inMin) + outMin

/-- One evaluation of the loop header of aramp(T, v, lo, hi) (src/adel.h
lines 453-460) at clock t, with the persistent local adel_ramp_start = t0
stored at entry: the while condition is millis() <= adel_ramp_start + T;
when it holds, v is assigned map(millis(), adel_ramp_start,
adel_ramp_start + T, lo, hi) and the body runs once with that value
(result some v); when it fails, v is not assigned and control falls out of
the loop past the construct (result none). -/
def arampCheck (T lo hi : Int) (t0 t : Nat) : Option Int :=
  if (t : Int) ≤ (t0 : Int) + T then
    some (arduinoMap (t : Int) (t0 : Int) ((t0 : Int) + T) lo hi)
  else none

/-- Claim C9 counterexample.  At elapsed time exactly T = 1000 the claim
says the construct has fallen through (elapsed >= T), but the loop
condition millis() <= adel_ramp_start + T still holds, so the body runs
once more, with v = 255. -/
theorem aramp_claim_counterexample :
    arampCheck 1000 0 255 0 1000 = some 255 ∧ 1000 + 0 ≤ 1000 := by
  exact ⟨by decide, by decide⟩

/-- Claim C9, amended.  First conjunct: the body of aramp(T, v, lo, hi)
runs an iteration exactly while elapsed <= T (not elapsed < T), with v set
to the Arduino integer map of the current clock from [entry, entry + T]
to [lo, hi]; the construct falls through once elapsed > T.  Remaining
conjuncts: Ramp(1000, 0, 255) sampled at elapsed 0, 250, 500, 750, 999
yields exactly 0, 63, 127, 191, 254 — each within one unit of the claimed
approximate values 0, 64, 128, 191, 255 — and at elapsed 1001 the
construct has fallen through. -/
theorem aramp_amended :
    (∀ (T lo hi : Int) (t0 t : Nat),
        (arampCheck T lo hi t0 t).isSome = true ↔ (t : Int) ≤ (t0 : Int) + T) ∧
      arampCheck 1000 0 255 0 0 = some 0 ∧
      arampCheck 1000 0 255 0 250 = some 63 ∧
      arampCheck 1000 0 255 0 500 = some 127 ∧
      arampCheck 1000 0 255 0 750 = some 191 ∧
      arampCheck 1000 0 255 0 999 = some 254 ∧
      arampCheck 1000 0 255 0 1001 = none := by
  refine ⟨?_, by decide, by decide, by decide, by decide, by decide, by decide⟩
  intro T lo hi t0 t
  unfold arampCheck
  split <;> simp_all

end Adel
